import Mathlib

/-!
Verification model of the feed-monitor subsystem of `sora-dl`
(`src/utils/feed-monitor.ts`).

The TypeScript code manipulates JSON values obtained from `JSON.parse`.
We embed those values as the type `Doc` below (the Document model of the
design): null, booleans, numbers, strings, arrays and objects.  Feed
numbers are integers (counts, ids, timestamps), so `num` carries `Int`.
Object key/value lists keep insertion order, which is the enumeration
order used by JavaScript `for...in` and by `JSON.stringify` for
non-numeric keys; the model assumes keys are not integer-like strings
(for which JavaScript would use numeric ordering) and do not collide
with `Object.prototype` properties.
-/

mutual

inductive Doc where
  | null
  | bool (b : Bool)
  | num (i : Int)
  | str (s : String)
  | arr (xs : DocList)
  | obj (kvs : KVList)

inductive DocList where
  | nil
  | cons (head : Doc) (tail : DocList)

inductive KVList where
  | nil
  | cons (key : String) (value : Doc) (tail : KVList)

end

/-- Composite test used by the source at
`typeof v === 'object' && v !== null`: arrays and objects are composite,
`null` is excluded even though its JavaScript `typeof` is `'object'`. -/
def Doc.isComposite : Doc → Bool
  | .arr _ => true
  | .obj _ => true
  | _ => false

/-- JavaScript truthiness of a value, used by the source in
`if (previousItem && ...)`. -/
def Doc.truthy : Doc → Bool
  | .null => false
  | .bool b => b
  | .num i => !(i = 0)
  | .str s => !(s = "")
  | .arr _ => true
  | .obj _ => true

def KVList.hasKey (k : String) : KVList → Bool
  | .nil => false
  | .cons k' _ t => k' = k || t.hasKey k

/-- First binding of a key, the value produced by JavaScript property
lookup on an object (objects built by `JSON.parse` never repeat a key). -/
def KVList.lookupFirst (k : String) : KVList → Option Doc
  | .nil => none
  | .cons k' v t => if k' = k then some v else t.lookupFirst k

def DocList.length : DocList → Nat
  | .nil => 0
  | .cons _ t => t.length + 1

def DocList.get? : DocList → Nat → Option Doc
  | .nil, _ => none
  | .cons h _, 0 => some h
  | .cons _ t, n + 1 => t.get? n

mutual

/-- Well-formedness of a Document: no object repeats a key.  Every value
produced by `JSON.parse` satisfies this; the raw `Doc` type does not
enforce it. -/
def Doc.wf : Doc → Bool
  | .null => true
  | .bool _ => true
  | .num _ => true
  | .str _ => true
  | .arr xs => xs.wf
  | .obj kvs => kvs.wf

def DocList.wf : DocList → Bool
  | .nil => true
  | .cons h t => h.wf && t.wf

def KVList.wf : KVList → Bool
  | .nil => true
  | .cons k v t => !(t.hasKey k) && v.wf && t.wf

end

/-- Pair membership in a key/value list. -/
def KVList.MemPair (k : String) (v : Doc) : KVList → Prop
  | .nil => False
  | .cons k' v' t => (k' = k ∧ v' = v) ∨ t.MemPair k v

/-- A Document that is a nonempty string (the one shape on which the
diff engine of the source throws when diffed against a primitive). -/
def Doc.isNonemptyString : Doc → Bool
  | .str s => !(s = "")
  | _ => false

/-- Errors surfaced by the embedded code: the `TypeError` raised by the
JavaScript `in` operator on a primitive operand, and errors thrown by
the feed fetch. -/
inductive JsErr where
  | typeError
  | fetchError (msg : String)
deriving DecidableEq

/-- One record pushed by `getObjectDifferences`: `{path, type, oldValue?,
newValue?}` where `type` is the string `"added"` or `"modified"` and
`oldValue` is absent on `"added"` records. -/
structure FieldDiff where
  path : String
  type : String
  oldValue : Option Doc
  newValue : Option Doc

/-- Path join from the source: `path ? path + "." + key : key`
(the empty root path is the only falsy string). -/
def joinPath (path key : String) : String :=
  if path = "" then key else path ++ "." ++ key

/-- JavaScript strict equality `===` on values.  Primitives compare by
value; composites compare by reference, and the values reaching the
comparisons of the source come from separate `JSON.parse` trees, so two
composite operands are never the same reference: the model returns
`false` whenever either side is composite.  (In the one same-reference
situation, diffing a value against itself, the source reaches `===`
only on primitive operands, because both-composite pairs take the
recursion branch first.) -/
def strictEq : Doc → Doc → Bool
  | .null, .null => true
  | .bool a, .bool b => a = b
  | .num a, .num b => a = b
  | .str a, .str b => a = b
  | _, _ => false

/-- The JavaScript `in` operator, `k in o1`, for a string key `k`:
object key membership; on arrays, canonical index strings below the
length (and `length` itself); a primitive right operand raises
`TypeError`. -/
def jsInStr (k : String) : Doc → Except JsErr Bool
  | .obj kvs => .ok (kvs.hasKey k)
  | .arr xs => .ok (k = "length" ||
      (match k.toNat? with
       | some n => decide (toString n = k) && decide (n < xs.length)
       | none => false))
  | _ => .error .typeError

/-- Property read `o1[k]` for a string key, consulted by the source only
after `k in o1` succeeded, so `o1` is composite and the key is present
(the `.null` defaults are never reached under that guard). -/
def jsGetStr (k : String) : Doc → Doc
  | .obj kvs => (kvs.lookupFirst k).getD .null
  | .arr xs =>
      if k = "length" then .num xs.length
      else
        match k.toNat? with
        | some n => (xs.get? n).getD .null
        | none => .null
  | _ => .null

/-- The `in` operator for a numeric key `i` (the keys `for...in`
enumerates on an array or string are the canonical decimal index
strings, so membership on an array operand is the bound check). -/
def jsInIdx (i : Nat) : Doc → Except JsErr Bool
  | .obj kvs => .ok (kvs.hasKey (toString i))
  | .arr xs => .ok (decide (i < xs.length))
  | _ => .error .typeError

/-- Property read `o1[i]` for a numeric key, guarded like `jsGetStr`. -/
def jsGetIdx (i : Nat) : Doc → Doc
  | .obj kvs => (kvs.lookupFirst (toString i)).getD .null
  | .arr xs => (xs.get? i).getD .null
  | _ => .null

/-- The `compareObjects` loop of `getObjectDifferences` when the second
operand is a string: `for...in` enumerates the index properties of the
string wrapper, each value a one-character string.  The `in` check on a
primitive left operand throws, as in the general case. -/
def compareChars (o1 : Doc) (p : String) : List Char → Nat → Except JsErr (List FieldDiff)
  | [], _ => .ok []
  | c :: rest, i =>
      let cp := joinPath p (toString i)
      match jsInIdx i o1 with
      | .error e => .error e
      | .ok b =>
        let v2 : Doc := .str (String.singleton c)
        let head : List FieldDiff :=
          if !b then [⟨cp, "added", none, some v2⟩]
          else
            let v1 := jsGetIdx i o1
            if !(strictEq v1 v2) then [⟨cp, "modified", some v1, some v2⟩] else []
        match compareChars o1 p rest (i + 1) with
        | .error e => .error e
        | .ok tail => .ok (head ++ tail)

mutual

/-- The inner recursive `compareObjects(o1, o2, path)` of
`FeedMonitor.getObjectDifferences`: iterate with `for...in` over the
keys of `o2` only.  For each key: absent from `o1` emits `added`; both
values composite recurses with the extended path; otherwise a strict
inequality emits `modified` with the whole old and new values.  Arrays
and strings enumerate their index keys. -/
def compareObjects (o1 o2 : Doc) (p : String) : Except JsErr (List FieldDiff) :=
  match o2 with
  | .obj kvs => compareKVs o1 kvs p
  | .arr xs => compareElems o1 xs 0 p
  | .str s => compareChars o1 p s.data 0
  | _ => .ok []

/-- Key loop of `compareObjects` when `o2` is an object. -/
def compareKVs (o1 : Doc) (kvs : KVList) (p : String) : Except JsErr (List FieldDiff) :=
  match kvs with
  | .nil => .ok []
  | .cons k v2 rest =>
      let cp := joinPath p k
      match jsInStr k o1 with
      | .error e => .error e
      | .ok b =>
        let headE : Except JsErr (List FieldDiff) :=
          if !b then .ok [⟨cp, "added", none, some v2⟩]
          else
            let v1 := jsGetStr k o1
            if v1.isComposite && v2.isComposite then compareObjects v1 v2 cp
            else if !(strictEq v1 v2) then .ok [⟨cp, "modified", some v1, some v2⟩]
            else .ok []
        match headE with
        | .error e => .error e
        | .ok head =>
          match compareKVs o1 rest p with
          | .error e => .error e
          | .ok tail => .ok (head ++ tail)

/-- Index loop of `compareObjects` when `o2` is an array. -/
def compareElems (o1 : Doc) (xs : DocList) (i : Nat) (p : String) : Except JsErr (List FieldDiff) :=
  match xs with
  | .nil => .ok []
  | .cons v2 rest =>
      let cp := joinPath p (toString i)
      match jsInIdx i o1 with
      | .error e => .error e
      | .ok b =>
        let headE : Except JsErr (List FieldDiff) :=
          if !b then .ok [⟨cp, "added", none, some v2⟩]
          else
            let v1 := jsGetIdx i o1
            if v1.isComposite && v2.isComposite then compareObjects v1 v2 cp
            else if !(strictEq v1 v2) then .ok [⟨cp, "modified", some v1, some v2⟩]
            else .ok []
        match headE with
        | .error e => .error e
        | .ok head =>
          match compareElems o1 rest (i + 1) p with
          | .error e => .error e
          | .ok tail => .ok (head ++ tail)

end

/-- `FeedMonitor.getObjectDifferences(obj1, obj2)`: run the comparison
loop from the root path `""`. -/
def getObjectDifferences (obj1 obj2 : Doc) : Except JsErr (List FieldDiff) :=
  compareObjects obj1 obj2 ""

/-- Escaping performed by `JSON.stringify` on a string: quote and
backslash get a backslash; control characters do not occur in the
modelled inputs and are left as they are. -/
def jsonEscapeChar (c : Char) : List Char :=
  if c = '"' then ['\\', '"']
  else if c = '\\' then ['\\', '\\']
  else [c]

def jsonQuote (s : String) : String :=
  "\"" ++ String.mk (s.data.foldr (fun c acc => jsonEscapeChar c ++ acc) []) ++ "\""

mutual

/-- `JSON.stringify` on a Document: object members are emitted in
property insertion order, which makes the serialization sensitive to
key order. -/
def jsonStringify : Doc → String
  | .null => "null"
  | .bool b => cond b "true" "false"
  | .num i => toString i
  | .str s => jsonQuote s
  | .arr xs => "[" ++ stringifyElems xs ++ "]"
  | .obj kvs => "\x7b" ++ stringifyKVs kvs ++ "\x7d"

def stringifyElems : DocList → String
  | .nil => ""
  | .cons h .nil => jsonStringify h
  | .cons h (.cons h' t) => jsonStringify h ++ "," ++ stringifyElems (.cons h' t)

def stringifyKVs : KVList → String
  | .nil => ""
  | .cons k v .nil => jsonQuote k ++ ":" ++ jsonStringify v
  | .cons k v (.cons k' v' t) =>
      jsonQuote k ++ ":" ++ jsonStringify v ++ "," ++ stringifyKVs (.cons k' v' t)

end

/-- Optional property read `d[k]` that may produce `undefined` (`none`),
modelling the optional chains `item.post`, `post.id`, `post.attachments`
and `att.kind` of the source.  Those call sites never use numeric or
`length` keys, so only object lookup yields a value. -/
def jsGetOpt (d : Doc) (k : String) : Option Doc :=
  match d with
  | .obj kvs => kvs.lookupFirst k
  | _ => none

/-- `item.post?.id`, the identity key of an item. -/
def getId (item : Doc) : Option Doc :=
  (jsGetOpt item "post").bind (fun p => jsGetOpt p "id")

/-- Strict equality on possibly-`undefined` values: `undefined ===
undefined` holds, `undefined` equals nothing else, and present values
compare with `===`.  This is also the `SameValueZero` equality of
`Set.has` for the values at hand (no `NaN` and no shared references
across parse trees). -/
def jsStrictEqOpt : Option Doc → Option Doc → Bool
  | none, none => true
  | some a, some b => strictEq a b
  | _, _ => false

/-- Membership of an id in `new Set(items.map(item => item.post?.id))`. -/
def hasId (items : List Doc) (x : Option Doc) : Bool :=
  items.any (fun it => jsStrictEqOpt (getId it) x)

/-- Snapshot payload.  The source reads `data.items` through the
optional chain `data.items || []`; a missing or empty list is modelled
as `[]`, which contributes the same zero count everywhere. -/
structure FeedData where
  items : List Doc

/-- One collected snapshot (`FeedFile` of the source).  The on-disk
path field is omitted: it never influences comparison or reporting. -/
structure FeedFile where
  timestamp : String
  iteration : Nat
  data : FeedData

/-- Summary entry pushed into `newItems` and `removedItems`.  The
source also copies a 100-character text preview and `posted_at`,
which no comparison logic reads back; the claims inspect ids only and
the model keeps the id. -/
structure ItemSummary where
  id : Option Doc

structure ModifiedEntry where
  id : Option Doc
  changes : List FieldDiff

structure TotalItems where
  previous : Nat
  current : Nat
  difference : Int

structure FeedChanges where
  totalItems : TotalItems
  newItems : List ItemSummary
  removedItems : List ItemSummary
  modifiedItems : List ModifiedEntry

structure FeedComparison where
  iteration : Nat
  timestamp : String
  previousTimestamp : String
  changes : FeedChanges

/-- The modified-item loop of `compareFeeds`: for each current item,
find a previous item with the same id (`===` on `item.post?.id`); if
one is found (and is truthy) and the two items have different
`JSON.stringify` serializations, push its id together with
`getObjectDifferences(previousItem, currentItem)`. -/
def buildModified (prevItems : List Doc) : List Doc → Except JsErr (List ModifiedEntry)
  | [] => .ok []
  | c :: rest =>
      let entryE : Except JsErr (List ModifiedEntry) :=
        match prevItems.find? (fun pItem => jsStrictEqOpt (getId pItem) (getId c)) with
        | some pItem =>
            if pItem.truthy then
              if jsonStringify c = jsonStringify pItem then .ok []
              else
                match getObjectDifferences pItem c with
                | .error e => .error e
                | .ok ds => .ok [⟨getId c, ds⟩]
            else .ok []
        | none => .ok []
      match entryE with
      | .error e => .error e
      | .ok entry =>
        match buildModified prevItems rest with
        | .error e => .error e
        | .ok tail => .ok (entry ++ tail)

/-- One iteration of the `compareFeeds` loop, comparing the snapshot at
index `i - 1` with the snapshot at index `i` (the source loop variable
`i` is passed here, and the produced record carries `iteration = i + 1`). -/
def comparePair (i : Nat) (prevF currF : FeedFile) : Except JsErr FeedComparison :=
  let prev := prevF.data.items
  let curr := currF.data.items
  match buildModified prev curr with
  | .error e => .error e
  | .ok mods => .ok
      { iteration := i + 1
        timestamp := currF.timestamp
        previousTimestamp := prevF.timestamp
        changes :=
          { totalItems :=
              { previous := prev.length
                current := curr.length
                difference := (curr.length : Int) - (prev.length : Int) }
            newItems := (curr.filter (fun c => !(hasId prev (getId c)))).map
              (fun c => ⟨getId c⟩)
            removedItems := (prev.filter (fun pItem => !(hasId curr (getId pItem)))).map
              (fun pItem => ⟨getId pItem⟩)
            modifiedItems := mods } }

def compareFeedsAux (i : Nat) : List FeedFile → Except JsErr (List FeedComparison)
  | prevF :: currF :: rest =>
      match comparePair i prevF currF with
      | .error e => .error e
      | .ok comp =>
        match compareFeedsAux (i + 1) (currF :: rest) with
        | .error e => .error e
        | .ok tail => .ok (comp :: tail)
  | _ => .ok []

/-- `FeedMonitor.compareFeeds`: one comparison per adjacent pair of
collected snapshots, in order; fewer than two snapshots give none. -/
def compareFeeds (files : List FeedFile) : Except JsErr (List FeedComparison) :=
  compareFeedsAux 1 files

/-- JavaScript numbers as they appear in the report statistics: a
finite rational, or the `NaN` of `0 / 0`, or the infinities produced by
`Math.min()` and `Math.max()` of no arguments. -/
inductive JSNum where
  | num (q : Rat)
  | nan
  | inf
  | negInf
deriving DecidableEq

/-- JavaScript division on the (finite) operands the report computes. -/
def jsDiv (a b : Rat) : JSNum :=
  if b = 0 then (if a = 0 then .nan else if a > 0 then .inf else .negInf)
  else .num (a / b)

/-- `Math.min(...l)`: `Infinity` on an empty argument list. -/
def jsMinList : List Nat → JSNum
  | [] => .inf
  | x :: xs => .num ((xs.foldl min x : Nat) : Rat)

/-- `Math.max(...l)`: `-Infinity` on an empty argument list. -/
def jsMaxList : List Nat → JSNum
  | [] => .negInf
  | x :: xs => .num ((xs.foldl max x : Nat) : Rat)

/-- Report `summary`.  The wall-clock `startTime` and `endTime` strings
are not modelled; `totalDuration` (`Date.now() - this.startTime`) is a
parameter. -/
structure Summary where
  totalIterations : Nat
  totalDuration : Int
  averageInterval : JSNum

structure IterationInfo where
  iteration : Nat
  timestamp : String
  itemCount : Nat
  videoCount : Nat

structure Statistics where
  totalNewItems : Nat
  totalRemovedItems : Nat
  totalModifiedItems : Nat
  averageItemsPerIteration : JSNum
  minItems : JSNum
  maxItems : JSNum

structure Report where
  summary : Summary
  iterations : List IterationInfo
  comparisons : List FeedComparison
  statistics : Statistics

/-- The `att => att.kind === 'sora'` predicate folded over an
attachment array by `Array.prototype.some`. -/
def soraAny : DocList → Bool
  | .nil => false
  | .cons att t => jsStrictEqOpt (jsGetOpt att "kind") (some (.str "sora")) || soraAny t

/-- `item.post?.attachments?.some(att => att.kind === 'sora')`.  A
non-array `attachments` value would make `.some` throw in JavaScript;
feed payloads carry arrays there and the model covers the array and
absent cases. -/
def isSoraItem (item : Doc) : Bool :=
  match (jsGetOpt item "post").bind (fun p => jsGetOpt p "attachments") with
  | some (.arr atts) => soraAny atts
  | _ => false

/-- `FeedMonitor.generateComparisonReport`, as the pure report builder:
`iterations` is the configured iteration count `this.iterations`,
`totalDuration` is the elapsed wall clock, `files` is `this.feedFiles`.
Writing the JSON file and printing are external effects not modelled. -/
def generateComparisonReport (iterations : Nat) (totalDuration : Int)
    (files : List FeedFile) : Except JsErr Report :=
  match compareFeeds files with
  | .error e => .error e
  | .ok comparisons => .ok
      { summary :=
          { totalIterations := iterations
            totalDuration := totalDuration
            averageInterval := jsDiv (totalDuration : Rat) (iterations : Rat) }
        iterations := files.map (fun f =>
          { iteration := f.iteration
            timestamp := f.timestamp
            itemCount := f.data.items.length
            videoCount := (f.data.items.filter isSoraItem).length })
        comparisons := comparisons
        statistics :=
          { totalNewItems :=
              comparisons.foldl (fun sum comp => sum + comp.changes.newItems.length) 0
            totalRemovedItems :=
              comparisons.foldl (fun sum comp => sum + comp.changes.removedItems.length) 0
            totalModifiedItems :=
              comparisons.foldl (fun sum comp => sum + comp.changes.modifiedItems.length) 0
            averageItemsPerIteration :=
              jsDiv ((files.foldl (fun sum f => sum + f.data.items.length) 0 : Nat) : Rat)
                ((files.length : Nat) : Rat)
            minItems := jsMinList (files.map (fun f => f.data.items.length))
            maxItems := jsMaxList (files.map (fun f => f.data.items.length)) } }

/-- The fetch loop of `FeedMonitor.run`: `fetch j` is the outcome of
the `fetchFeed` call of iteration `j` (zero-based, as the loop variable
`i` of the source); a successful fetch appends a snapshot stamped with
`iteration = j + 1`; a thrown error stops the loop at once. -/
def runAux (fetch : Nat → Except JsErr FeedData) (ts : Nat → String)
    (n : Nat) (i : Nat) (acc : List FeedFile) : List FeedFile × Except JsErr Unit :=
  if i < n then
    match fetch i with
    | .error e => (acc, .error e)
    | .ok dta => runAux fetch ts n (i + 1) (acc ++ [⟨ts i, i + 1, dta⟩])
  else (acc, .ok ())
termination_by n - i
decreasing_by omega

/-- `FeedMonitor.run`: execute `n` fetch iterations; only if all
succeed is `generateComparisonReport` reached.  The first component is
the snapshot store `this.feedFiles` as left behind by the loop; the
second is the propagated error or the produced report. -/
def runModel (fetch : Nat → Except JsErr FeedData) (ts : Nat → String)
    (n : Nat) (totalDuration : Int) : List FeedFile × Except JsErr Report :=
  match runAux fetch ts n 0 [] with
  | (files, .error e) => (files, .error e)
  | (files, .ok ()) => (files, generateComparisonReport n totalDuration files)

/-- The key/value pairs of a mapping as an ordinary list, used to state
that two mappings hold the same pairs up to order. -/
def KVList.toList : KVList → List (String × Doc)
  | .nil => []
  | .cons k v t => (k, v) :: t.toList

/-! ### Basic lemmas about the value model -/

theorem strictEq_symm (a b : Doc) : strictEq a b = strictEq b a := by
  cases a <;> cases b <;> simp [strictEq] <;> exact eq_comm

theorem jsStrictEqOpt_symm (a b : Option Doc) : jsStrictEqOpt a b = jsStrictEqOpt b a := by
  cases a <;> cases b <;> simp [jsStrictEqOpt, strictEq_symm]

theorem strictEq_refl_of_not_composite {v : Doc} (h : v.isComposite = false) :
    strictEq v v = true := by
  cases v <;> simp_all [Doc.isComposite, strictEq]

theorem strictEq_false_left {v : Doc} (h : v.isComposite = true) (w : Doc) :
    strictEq v w = false := by
  cases v <;> cases w <;> simp_all [Doc.isComposite, strictEq]

theorem strictEq_false_right {v : Doc} (h : v.isComposite = true) (w : Doc) :
    strictEq w v = false := by
  rw [strictEq_symm]; exact strictEq_false_left h w

theorem composite_not_nonemptyString {v : Doc} (h : v.isComposite = true) :
    v.isNonemptyString = false := by
  cases v <;> simp_all [Doc.isComposite, Doc.isNonemptyString]

theorem DocList.get?_lt_length : ∀ (xs : DocList) (i : Nat) (v : Doc),
    xs.get? i = some v → i < xs.length
  | .nil, i, v, h => by simp [DocList.get?] at h
  | .cons hd tl, 0, v, _ => by simp [DocList.length]
  | .cons hd tl, i + 1, v, h => by
      have := DocList.get?_lt_length tl i v (by simpa [DocList.get?] using h)
      simp [DocList.length]; omega

theorem KVList.memPair_hasKey : ∀ {k : String} {v : Doc} (l : KVList),
    l.MemPair k v → l.hasKey k = true
  | k, v, .nil, h => absurd h (by simp [KVList.MemPair])
  | k, v, .cons k' v' t, h => by
      rcases h with ⟨hk, _⟩ | h
      · simp [KVList.hasKey, hk]
      · simp [KVList.hasKey, KVList.memPair_hasKey t h]

theorem KVList.lookupFirst_hasKey : ∀ {k : String} {v : Doc} (l : KVList),
    l.lookupFirst k = some v → l.hasKey k = true
  | k, v, .nil, h => by simp [KVList.lookupFirst] at h
  | k, v, .cons k' v' t, h => by
      by_cases hk : k' = k
      · simp [KVList.hasKey, hk]
      · simp only [KVList.lookupFirst, if_neg hk] at h
        simp [KVList.hasKey, KVList.lookupFirst_hasKey t h]

theorem KVList.lookupFirst_of_memPair : ∀ {k : String} {v : Doc} (l : KVList),
    l.wf = true → l.MemPair k v → l.lookupFirst k = some v
  | k, v, .nil, _, h => absurd h (by simp [KVList.MemPair])
  | k, v, .cons k' v' t, hwf, h => by
      simp only [KVList.wf, Bool.and_eq_true, Bool.not_eq_true'] at hwf
      obtain ⟨⟨hdup, _⟩, htwf⟩ := hwf
      rcases h with ⟨hk, hv⟩ | h
      · subst hk; subst hv; simp [KVList.lookupFirst]
      · have hkey := KVList.memPair_hasKey t h
        have hne : k' ≠ k := by
          intro he; subst he; rw [hkey] at hdup; cases hdup
        simp only [KVList.lookupFirst, if_neg hne]
        exact KVList.lookupFirst_of_memPair t htwf h

/-! ### Diffing a document against itself (claim C9 support)

The recursion of `compareObjects` on a pair of identical arguments:
every key of the second operand is present in the first with the same
value, so both-composite pairs recurse and primitive pairs satisfy
strict equality, producing no records — except that a nonempty string
at the root makes the `in` check throw, handled separately. -/

mutual

theorem compareObjects_self (X : Doc) (hwf : X.wf = true)
    (hns : X.isNonemptyString = false) (p : String) :
    compareObjects X X p = .ok [] := by
  cases X with
  | null => rfl
  | bool b => rfl
  | num i => rfl
  | str s =>
      have hs : s = "" := by simpa [Doc.isNonemptyString] using hns
      subst hs; rfl
  | arr xs =>
      have hwf' : xs.wf = true := by simpa [Doc.wf] using hwf
      exact compareElems_self xs xs 0 hwf' (fun j => by simp) p
  | obj kvs =>
      have hwf' : kvs.wf = true := by simpa [Doc.wf] using hwf
      exact compareKVs_self kvs kvs hwf'
        (fun k v h => KVList.lookupFirst_of_memPair kvs hwf' h) p

theorem compareKVs_self (kvs0 kvs : KVList) (hwf : kvs.wf = true)
    (hmem : ∀ k v, kvs.MemPair k v → kvs0.lookupFirst k = some v) (p : String) :
    compareKVs (.obj kvs0) kvs p = .ok [] := by
  cases kvs with
  | nil => rfl
  | cons k v2 rest =>
      have hlk : kvs0.lookupFirst k = some v2 := hmem k v2 (Or.inl ⟨rfl, rfl⟩)
      have hk : kvs0.hasKey k = true := KVList.lookupFirst_hasKey kvs0 hlk
      simp only [KVList.wf, Bool.and_eq_true, Bool.not_eq_true'] at hwf
      obtain ⟨⟨_, hv2⟩, hrest⟩ := hwf
      have htail := compareKVs_self kvs0 rest hrest
        (fun k' v' h => hmem k' v' (Or.inr h)) p
      simp only [compareKVs, jsInStr, hk, Bool.not_true, Bool.false_eq_true,
        if_false, jsGetStr, hlk, Option.getD_some]
      by_cases hc : v2.isComposite = true
      · have hrec := compareObjects_self v2 hv2 (composite_not_nonemptyString hc)
          (joinPath p k)
        simp [hc, hrec, htail]
      · have hb : v2.isComposite = false := by simpa using hc
        simp [hb, strictEq_refl_of_not_composite hb, htail]

theorem compareElems_self (xs ys : DocList) (i : Nat) (hwf : ys.wf = true)
    (hget : ∀ j, ys.get? j = xs.get? (i + j)) (p : String) :
    compareElems (.arr xs) ys i p = .ok [] := by
  cases ys with
  | nil => rfl
  | cons v2 rest =>
      have h0 : xs.get? i = some v2 := by
        have h := hget 0
        simpa [DocList.get?] using h.symm
      have hlt : i < xs.length := DocList.get?_lt_length xs i v2 h0
      simp only [DocList.wf, Bool.and_eq_true] at hwf
      obtain ⟨hv2, hrest⟩ := hwf
      have hget' : ∀ j, rest.get? j = xs.get? (i + 1 + j) := by
        intro j
        have h := hget (j + 1)
        simp only [DocList.get?] at h
        rw [show i + (j + 1) = i + 1 + j by omega] at h
        exact h
      have htail := compareElems_self xs rest (i + 1) hrest hget' p
      simp only [compareElems, jsInIdx, decide_eq_true hlt, Bool.not_true,
        Bool.false_eq_true, if_false, jsGetIdx, h0, Option.getD_some]
      by_cases hc : v2.isComposite = true
      · have hrec := compareObjects_self v2 hv2 (composite_not_nonemptyString hc)
          (joinPath p (toString i))
        simp [hc, hrec, htail]
      · have hb : v2.isComposite = false := by simpa using hc
        simp [hb, strictEq_refl_of_not_composite hb, htail]

end

/-- C9 counterexample: the claim quantifies over every Document, but on
a nonempty string Document the engine does not return the empty list:
`for...in` over the current string enumerates index `0` and the check
`"0" in obj1` is applied to a primitive, which raises a `TypeError`
instead of producing `[]`. -/
theorem c9_diff_self_string_throws :
    getObjectDifferences (.str "a") (.str "a") = .error .typeError ∧
    Except.error JsErr.typeError ≠ (.ok [] : Except JsErr (List FieldDiff)) := by
  refine ⟨rfl, ?_⟩
  intro h
  exact Except.noConfusion h

/-- C9 amended: for every well-formed Document `X` (no object repeats a
key — automatic for parsed JSON) that is not a nonempty string — in
particular for every mapping, as required by the diff contract —
`getObjectDifferences(X, X)` returns the empty difference list.  A
nonempty string at the root instead raises a `TypeError`. -/
theorem c9_diff_self_empty (X : Doc) (hwf : X.wf = true)
    (hns : X.isNonemptyString = false) :
    getObjectDifferences X X = .ok [] :=
  compareObjects_self X hwf hns ""

/-- Witness for C9 amended, at the mapping `{a: 1}`. -/
theorem c9_diff_self_empty_witness :
    getObjectDifferences (.obj (.cons "a" (.num 1) .nil)) (.obj (.cons "a" (.num 1) .nil)) =
      .ok [] :=
  c9_diff_self_empty (.obj (.cons "a" (.num 1) .nil)) rfl rfl

/-! ### Paths produced under a nonempty base path (claim C1 support) -/

theorem append_dot_ne (p suf : String) : p ++ "." ++ suf ≠ p := by
  intro h
  have hl := congrArg String.length h
  simp only [String.length_append] at hl
  have : String.length "." = 1 := rfl
  omega

theorem joinPath_of_ne {p : String} (h : p ≠ "") (k : String) :
    joinPath p k = p ++ "." ++ k := by
  simp [joinPath, h]

theorem joinPath_ne_empty {p : String} (h : p ≠ "") (k : String) :
    joinPath p k ≠ "" := by
  rw [joinPath_of_ne h]
  intro he
  have hl := congrArg String.length he
  simp only [String.length_append] at hl
  have : String.length "." = 1 := rfl
  have : String.length "" = 0 := rfl
  omega

theorem pathDot_chars : ∀ (cs : List Char) (o1 : Doc) (p : String) (i : Nat)
    (ds : List FieldDiff), p ≠ "" → compareChars o1 p cs i = .ok ds →
    ∀ d ∈ ds, ∃ suf, d.path = p ++ "." ++ suf
  | [], o1, p, i, ds, _, h => by
      simp only [compareChars] at h
      obtain rfl : ([] : List FieldDiff) = ds := Except.ok.inj h
      intro d hd; cases hd
  | c :: rest, o1, p, i, ds, hp, h => by
      simp only [compareChars] at h
      split at h
      · exact absurd h (by simp)
      · rename_i b hin
        split at h
        · exact absurd h (by simp)
        · rename_i tail htail
          have hrec := pathDot_chars rest o1 p (i + 1) tail hp htail
          obtain rfl := Except.ok.inj h
          intro d hd
          rcases List.mem_append.mp hd with hd | hd
          · have hpath : d.path = joinPath p (toString i) := by
              split at hd
              · rcases List.mem_singleton.mp hd with rfl; rfl
              · split at hd
                · rcases List.mem_singleton.mp hd with rfl; rfl
                · cases hd
            exact ⟨toString i, by rw [hpath, joinPath_of_ne hp]⟩
          · exact hrec d hd

mutual

theorem pathDot_objects : ∀ (o2 : Doc) (o1 : Doc) (p : String) (ds : List FieldDiff),
    p ≠ "" → compareObjects o1 o2 p = .ok ds →
    ∀ d ∈ ds, ∃ suf, d.path = p ++ "." ++ suf := by
  intro o2 o1 p ds hp h
  cases o2 with
  | null => obtain rfl := Except.ok.inj h; intro d hd; cases hd
  | bool b => obtain rfl := Except.ok.inj h; intro d hd; cases hd
  | num i => obtain rfl := Except.ok.inj h; intro d hd; cases hd
  | str s => exact pathDot_chars s.data o1 p 0 ds hp h
  | arr xs => exact pathDot_elems xs o1 0 p ds hp h
  | obj kvs => exact pathDot_kvs kvs o1 p ds hp h

theorem pathDot_kvs : ∀ (kvs : KVList) (o1 : Doc) (p : String) (ds : List FieldDiff),
    p ≠ "" → compareKVs o1 kvs p = .ok ds →
    ∀ d ∈ ds, ∃ suf, d.path = p ++ "." ++ suf := by
  intro kvs o1 p ds hp h
  cases kvs with
  | nil =>
      simp only [compareKVs] at h
      obtain rfl := Except.ok.inj h
      intro d hd; cases hd
  | cons k v2 rest =>
      have hcp : joinPath p k = p ++ "." ++ k := joinPath_of_ne hp k
      have hcpne : joinPath p k ≠ "" := joinPath_ne_empty hp k
      simp only [compareKVs] at h
      split at h
      · exact absurd h (by simp)
      · rename_i b hin
        split at h
        · exact absurd h (by simp)
        · rename_i head hhead
          split at h
          · exact absurd h (by simp)
          · rename_i tail htail
            obtain rfl := Except.ok.inj h
            have hrec := pathDot_kvs rest o1 p tail hp htail
            intro d hd
            rcases List.mem_append.mp hd with hd | hd
            · split at hhead
              · obtain rfl := Except.ok.inj hhead
                rcases List.mem_singleton.mp hd with rfl
                exact ⟨k, by rw [show FieldDiff.path ⟨joinPath p k, "added", none, some v2⟩ =
                  joinPath p k from rfl, hcp]⟩
              · split at hhead
                · obtain ⟨s, hs⟩ := pathDot_objects v2 (jsGetStr k o1)
                    (joinPath p k) head hcpne hhead d hd
                  refine ⟨k ++ "." ++ s, ?_⟩
                  rw [hs, hcp]
                  simp [String.append_assoc]
                · split at hhead
                  · obtain rfl := Except.ok.inj hhead
                    rcases List.mem_singleton.mp hd with rfl
                    exact ⟨k, by rw [show FieldDiff.path ⟨joinPath p k, "modified",
                      some (jsGetStr k o1), some v2⟩ = joinPath p k from rfl, hcp]⟩
                  · obtain rfl := Except.ok.inj hhead
                    cases hd
            · exact hrec d hd

theorem pathDot_elems : ∀ (xs : DocList) (o1 : Doc) (i : Nat) (p : String)
    (ds : List FieldDiff), p ≠ "" → compareElems o1 xs i p = .ok ds →
    ∀ d ∈ ds, ∃ suf, d.path = p ++ "." ++ suf := by
  intro xs o1 i p ds hp h
  cases xs with
  | nil =>
      simp only [compareElems] at h
      obtain rfl := Except.ok.inj h
      intro d hd; cases hd
  | cons v2 rest =>
      have hcp : joinPath p (toString i) = p ++ "." ++ toString i :=
        joinPath_of_ne hp (toString i)
      have hcpne : joinPath p (toString i) ≠ "" := joinPath_ne_empty hp (toString i)
      simp only [compareElems] at h
      split at h
      · exact absurd h (by simp)
      · rename_i b hin
        split at h
        · exact absurd h (by simp)
        · rename_i head hhead
          split at h
          · exact absurd h (by simp)
          · rename_i tail htail
            obtain rfl := Except.ok.inj h
            have hrec := pathDot_elems rest o1 (i + 1) p tail hp htail
            intro d hd
            rcases List.mem_append.mp hd with hd | hd
            · split at hhead
              · obtain rfl := Except.ok.inj hhead
                rcases List.mem_singleton.mp hd with rfl
                exact ⟨toString i, by rw [show FieldDiff.path ⟨joinPath p (toString i),
                  "added", none, some v2⟩ = joinPath p (toString i) from rfl, hcp]⟩
              · split at hhead
                · obtain ⟨s, hs⟩ := pathDot_objects v2 (jsGetIdx i o1)
                    (joinPath p (toString i)) head hcpne hhead d hd
                  refine ⟨toString i ++ "." ++ s, ?_⟩
                  rw [hs, hcp]
                  simp [String.append_assoc]
                · split at hhead
                  · obtain rfl := Except.ok.inj hhead
                    rcases List.mem_singleton.mp hd with rfl
                    exact ⟨toString i, by rw [show FieldDiff.path ⟨joinPath p (toString i),
                      "modified", some (jsGetIdx i o1), some v2⟩ =
                      joinPath p (toString i) from rfl, hcp]⟩
                  · obtain rfl := Except.ok.inj hhead
                    cases hd
            · exact hrec d hd

end

/-- C1 counterexample: for `previous = {k: [1]}` and `current = {k: [2]}`
both values at key `k` are arrays that are not deep-equal, yet
`getObjectDifferences` does not emit one `Modified` record at path `k`
with the whole arrays: arrays satisfy the composite test of the source
(`typeof [] === 'object'`), so the engine recurses into them and emits
the per-index record at path `k.0` instead. -/
theorem c1_arrays_not_scalars_cex :
    getObjectDifferences (.obj (.cons "k" (.arr (.cons (.num 1) .nil)) .nil))
      (.obj (.cons "k" (.arr (.cons (.num 2) .nil)) .nil)) =
      .ok [⟨"k.0", "modified", some (.num 1), some (.num 2)⟩] ∧
    "k.0" ≠ "k" := ⟨rfl, by decide⟩

/-- C1 amended: for a key `k` (nonempty, as feed keys are) whose value
in both documents is an array, `getObjectDifferences` recurses into the
arrays exactly as into nested mappings, and every emitted record lies
strictly inside the arrays: its path extends `k` with a dot-separated
suffix, and no record is emitted at the path `k` itself (in particular
never one `Modified` carrying the whole arrays at path `k`). -/
theorem c1_arrays_recursed (k : String) (xs ys : DocList) (ds : List FieldDiff)
    (hk : k ≠ "")
    (h : getObjectDifferences (.obj (.cons k (.arr xs) .nil))
      (.obj (.cons k (.arr ys) .nil)) = .ok ds) :
    compareObjects (.arr xs) (.arr ys) k = .ok ds ∧
    ∀ d ∈ ds, d.path ≠ k ∧ ∃ suf, d.path = k ++ "." ++ suf := by
  simp only [getObjectDifferences, compareObjects, compareKVs, jsInStr, KVList.hasKey,
    KVList.lookupFirst, jsGetStr, joinPath, Doc.isComposite, Bool.or_false, decide_True,
    Bool.not_true, Bool.false_eq_true, if_false, if_true, Option.getD_some,
    Bool.and_self, reduceIte] at h
  split at h
  · exact absurd h (by simp)
  · rename_i head hhead
    obtain rfl := Except.ok.inj h
    simp only [List.append_nil]
    have hobj : compareObjects (.arr xs) (.arr ys) k = .ok head := by
      simpa only [compareObjects] using hhead
    refine ⟨hobj, fun d hd => ?_⟩
    obtain ⟨suf, hs⟩ := pathDot_objects (.arr ys) (.arr xs) k head hk hobj d hd
    exact ⟨by rw [hs]; exact append_dot_ne k suf, ⟨suf, hs⟩⟩

/-- Witness for C1 amended at `previous = {k: [1]}`, `current = {k: [2]}`. -/
theorem c1_arrays_recursed_witness :
    compareObjects (.arr (.cons (.num 1) .nil)) (.arr (.cons (.num 2) .nil)) "k" =
      .ok [⟨"k.0", "modified", some (.num 1), some (.num 2)⟩] ∧
    ∀ d ∈ [(⟨"k.0", "modified", some (.num 1), some (.num 2)⟩ : FieldDiff)],
      d.path ≠ "k" ∧ ∃ suf, d.path = "k" ++ "." ++ suf :=
  c1_arrays_recursed "k" (.cons (.num 1) .nil) (.cons (.num 2) .nil)
    [⟨"k.0", "modified", some (.num 1), some (.num 2)⟩] (by decide) rfl

/-- C10: in `getObjectDifferences`, for a key `k` of the current object
that is present in the previous object (`k in o1` succeeds), when
exactly one of the two values is a non-null composite — a change
between `null` and a mapping, a scalar and a mapping, a scalar and an
array, and so on — the key contributes exactly one record, of type
`"modified"`, at the path of `k`, carrying the whole old value and the
whole new value; no recursion into either value happens and no record
for any inner path is produced.  (Recursion needs both sides composite:
here the composite-and-composite test is false and the strict equality
is false because a composite operand never satisfies `===` against an
operand of a different shape.) -/
theorem c10_one_composite_modified (o1 : Doc) (k : String) (v2 : Doc)
    (rest : KVList) (p : String)
    (hin : jsInStr k o1 = .ok true)
    (hx : (jsGetStr k o1).isComposite ≠ v2.isComposite) :
    compareKVs o1 (.cons k v2 rest) p =
      (match compareKVs o1 rest p with
       | .error e => .error e
       | .ok tail => .ok (⟨joinPath p k, "modified", some (jsGetStr k o1), some v2⟩ :: tail)) := by
  have hand : ((jsGetStr k o1).isComposite && v2.isComposite) = false := by
    cases h1 : (jsGetStr k o1).isComposite <;> cases h2 : v2.isComposite <;> simp_all
  have hne : strictEq (jsGetStr k o1) v2 = false := by
    cases h1 : (jsGetStr k o1).isComposite
    · cases h2 : v2.isComposite
      · rw [h1, h2] at hx; exact absurd rfl hx
      · exact strictEq_false_right h2 _
    · exact strictEq_false_left h1 _
  simp only [compareKVs, hin, Bool.not_true, Bool.false_eq_true, if_false, hand, hne,
    Bool.not_false, if_true]
  cases htail : compareKVs o1 rest p <;> simp

/-- Witness for C10: previous `{k: null}`, current `{k: {}}` — a change
from `null` to a mapping yields the single whole-value `modified`
record at `k`. -/
theorem c10_one_composite_modified_witness :
    compareKVs (.obj (.cons "k" .null .nil)) (.cons "k" (.obj .nil) .nil) "" =
      .ok [⟨"k", "modified", some .null, some (.obj .nil)⟩] := by
  have h := c10_one_composite_modified (.obj (.cons "k" .null .nil)) "k" (.obj .nil)
    .nil "" rfl (by decide)
  simpa [compareKVs, jsGetStr, KVList.lookupFirst, joinPath] using h

/-! ### Collection comparison lemmas (claims C3, C4, C5, C8) -/

theorem comparePair_ok_shape (i : Nat) (fP cF : FeedFile) (comp : FeedComparison)
    (h : comparePair i fP cF = .ok comp) :
    comp.changes.newItems = (cF.data.items.filter
      (fun c => !(hasId fP.data.items (getId c)))).map (fun c => ⟨getId c⟩) ∧
    comp.changes.removedItems = (fP.data.items.filter
      (fun pItem => !(hasId cF.data.items (getId pItem)))).map (fun pItem => ⟨getId pItem⟩) := by
  simp only [comparePair] at h
  split at h
  · exact absurd h (by simp)
  · obtain rfl := Except.ok.inj h
    exact ⟨rfl, rfl⟩

theorem comparePair_disjoint (i : Nat) (fP cF : FeedFile) (comp : FeedComparison)
    (h : comparePair i fP cF = .ok comp) :
    ∀ a ∈ comp.changes.newItems, ∀ b ∈ comp.changes.removedItems,
      jsStrictEqOpt a.id b.id = false := by
  obtain ⟨hnew, hrem⟩ := comparePair_ok_shape i fP cF comp h
  intro a ha b hb
  rw [hnew] at ha
  rw [hrem] at hb
  obtain ⟨c, hcf, rfl⟩ := List.mem_map.mp ha
  obtain ⟨pItem, hpf, rfl⟩ := List.mem_map.mp hb
  obtain ⟨hcmem, hcpred⟩ := List.mem_filter.mp hcf
  obtain ⟨hpmem, hppred⟩ := List.mem_filter.mp hpf
  by_contra hne
  have htrue : jsStrictEqOpt (getId c) (getId pItem) = true := by
    cases he : jsStrictEqOpt (getId c) (getId pItem)
    · exact absurd he hne
    · rfl
  have hhas : hasId fP.data.items (getId c) = true :=
    List.any_eq_true.mpr ⟨pItem, hpmem, by rw [jsStrictEqOpt_symm]; exact htrue⟩
  rw [hhas] at hcpred
  cases hcpred

theorem compareFeedsAux_mem : ∀ (files : List FeedFile) (i : Nat)
    (comps : List FeedComparison), compareFeedsAux i files = .ok comps →
    ∀ comp ∈ comps, ∃ j fP cF, comparePair j fP cF = .ok comp
  | [], i, comps, h => by
      obtain rfl := Except.ok.inj h
      intro comp hc; cases hc
  | [f], i, comps, h => by
      obtain rfl := Except.ok.inj h
      intro comp hc; cases hc
  | f :: g :: rest, i, comps, h => by
      simp only [compareFeedsAux] at h
      split at h
      · exact absurd h (by simp)
      · rename_i c0 hc0
        split at h
        · exact absurd h (by simp)
        · rename_i tail htail
          obtain rfl := Except.ok.inj h
          intro comp hc
          rcases List.mem_cons.mp hc with rfl | hc
          · exact ⟨i, f, g, hc0⟩
          · exact compareFeedsAux_mem (g :: rest) (i + 1) tail htail comp hc

/-- C8: in every Comparison produced by `compareFeeds` from any pair of
adjacent snapshots, no id occurs both among the `newItems` ids and the
`removedItems` ids: a new id comes from a current item whose id is
absent from the previous id set, a removed id from a previous item
whose id is absent from the current id set, and the two conditions are
incompatible under the strict-equality id comparison of the source. -/
theorem c8_new_removed_disjoint (files : List FeedFile) (comps : List FeedComparison)
    (h : compareFeeds files = .ok comps) :
    ∀ comp ∈ comps, ∀ a ∈ comp.changes.newItems, ∀ b ∈ comp.changes.removedItems,
      jsStrictEqOpt a.id b.id = false := by
  intro comp hc
  obtain ⟨j, fP, cF, hpair⟩ := compareFeedsAux_mem files 1 comps h comp hc
  exact comparePair_disjoint j fP cF comp hpair

/-- Witness for C8 on the snapshots `[{post:{id:"x"}}]` then
`[{post:{id:"y"}}]`: the produced comparison lists `"y"` as new and
`"x"` as removed, and the theorem yields their disequality. -/
theorem c8_new_removed_disjoint_witness :
    jsStrictEqOpt (some (Doc.str "y")) (some (Doc.str "x")) = false :=
  c8_new_removed_disjoint
    [⟨"t1", 1, ⟨[.obj (.cons "post" (.obj (.cons "id" (.str "x") .nil)) .nil)]⟩⟩,
     ⟨"t2", 2, ⟨[.obj (.cons "post" (.obj (.cons "id" (.str "y") .nil)) .nil)]⟩⟩]
    [⟨2, "t2", "t1", ⟨⟨1, 1, 0⟩, [⟨some (.str "y")⟩], [⟨some (.str "x")⟩], []⟩⟩]
    rfl
    ⟨2, "t2", "t1", ⟨⟨1, 1, 0⟩, [⟨some (.str "y")⟩], [⟨some (.str "x")⟩], []⟩⟩
    (List.mem_singleton.mpr rfl)
    ⟨some (.str "y")⟩ (List.mem_singleton.mpr rfl)
    ⟨some (.str "x")⟩ (List.mem_singleton.mpr rfl)

/-- C3 amended: for a matched pair of adjacent one-item snapshots with
strictly-equal ids, the classification as modified is decided by
equality of the `JSON.stringify` serializations of the whole items —
an equality that is sensitive to mapping key order — and the diff list
attached is `getObjectDifferences(previousItem, currentItem)`.  In
particular two matched items whose mappings hold the same key/value
pairs in different order serialize differently and ARE classified as
modified (with an empty diff list). -/
theorem c3_modified_iff_stringify (tsP tsC : String) (p c : Doc) (ds : List FieldDiff)
    (htr : p.truthy = true)
    (hid : jsStrictEqOpt (getId p) (getId c) = true)
    (hdiff : getObjectDifferences p c = .ok ds) :
    compareFeeds [⟨tsP, 1, ⟨[p]⟩⟩, ⟨tsC, 2, ⟨[c]⟩⟩] =
      .ok [⟨2, tsC, tsP, ⟨⟨1, 1, 0⟩, [], [],
        if jsonStringify c = jsonStringify p then [] else [⟨getId c, ds⟩]⟩⟩] := by
  have hid' : jsStrictEqOpt (getId c) (getId p) = true := by
    rw [jsStrictEqOpt_symm]; exact hid
  have hbm : buildModified [p] [c] =
      .ok (if jsonStringify c = jsonStringify p then [] else [⟨getId c, ds⟩]) := by
    simp only [buildModified, List.find?, hid, htr, if_true]
    by_cases hs : jsonStringify c = jsonStringify p
    · simp [hs]
    · simp [hs, hdiff]
  have hnew : List.filter (fun cc => !(hasId [p] (getId cc))) [c] = [] := by
    simp [List.filter, hasId, hid]
  have hrem : List.filter (fun pp => !(hasId [c] (getId pp))) [p] = [] := by
    simp [List.filter, hasId, hid']
  simp only [compareFeeds, compareFeedsAux, comparePair, hbm, hnew, hrem]
  norm_num

/-- C3 counterexample: the two items
`{post:{id:"x"}, a:1, b:2}` and `{post:{id:"x"}, b:2, a:1}` carry the
same key/value pairs (a permutation), differing only in key order, yet
the comparison classifies the matched id `"x"` as modified (with an
empty diff list): the equality used by the source is
`JSON.stringify` equality, which serializes keys in insertion order and
is therefore not key-order-insensitive. -/
theorem c3_key_order_modified_cex :
    (KVList.toList (.cons "post" (.obj (.cons "id" (.str "x") .nil))
        (.cons "a" (.num 1) (.cons "b" (.num 2) .nil)))).Perm
      (KVList.toList (.cons "post" (.obj (.cons "id" (.str "x") .nil))
        (.cons "b" (.num 2) (.cons "a" (.num 1) .nil)))) ∧
    compareFeeds
      [⟨"t1", 1, ⟨[.obj (.cons "post" (.obj (.cons "id" (.str "x") .nil))
          (.cons "a" (.num 1) (.cons "b" (.num 2) .nil)))]⟩⟩,
       ⟨"t2", 2, ⟨[.obj (.cons "post" (.obj (.cons "id" (.str "x") .nil))
          (.cons "b" (.num 2) (.cons "a" (.num 1) .nil)))]⟩⟩] =
      .ok [⟨2, "t2", "t1", ⟨⟨1, 1, 0⟩, [], [], [⟨some (.str "x"), []⟩]⟩⟩] ∧
    [(⟨some (.str "x"), []⟩ : ModifiedEntry)] ≠ [] := by
  refine ⟨?_, rfl, by simp⟩
  exact List.Perm.cons _ (List.Perm.swap _ _ _)

/-- Witness for C3 amended at the key-order counterexample pair: the
serializations differ, so the produced comparison carries the modified
entry with an empty diff list. -/
theorem c3_modified_iff_stringify_witness :
    compareFeeds
      [⟨"t1", 1, ⟨[.obj (.cons "post" (.obj (.cons "id" (.str "x") .nil))
          (.cons "a" (.num 1) (.cons "b" (.num 2) .nil)))]⟩⟩,
       ⟨"t2", 2, ⟨[.obj (.cons "post" (.obj (.cons "id" (.str "x") .nil))
          (.cons "b" (.num 2) (.cons "a" (.num 1) .nil)))]⟩⟩] =
      .ok [⟨2, "t2", "t1", ⟨⟨1, 1, 0⟩, [], [], [⟨some (.str "x"), []⟩]⟩⟩] := by
  have h := c3_modified_iff_stringify "t1" "t2"
    (.obj (.cons "post" (.obj (.cons "id" (.str "x") .nil))
      (.cons "a" (.num 1) (.cons "b" (.num 2) .nil))))
    (.obj (.cons "post" (.obj (.cons "id" (.str "x") .nil))
      (.cons "b" (.num 2) (.cons "a" (.num 1) .nil))))
    [] rfl rfl rfl
  rw [if_neg (by decide)] at h
  exact h

/-- C4: for the adjacent snapshots holding the single matched item
`A = {post:{id:"x"}, meta:{a:1, b:2}}` and then
`B = {post:{id:"x"}, meta:{a:1}}` (key `b` removed from the nested
mapping), the whole-item equality is false (the serializations differ)
while `diffFields(A, B) = []`, because iteration is over the keys of
the current document only; the comparison still reports the item under
`modifiedItems`, with an empty diff list. -/
theorem c4_modified_empty_diffs :
    jsonStringify (.obj (.cons "post" (.obj (.cons "id" (.str "x") .nil))
        (.cons "meta" (.obj (.cons "a" (.num 1) (.cons "b" (.num 2) .nil))) .nil))) ≠
      jsonStringify (.obj (.cons "post" (.obj (.cons "id" (.str "x") .nil))
        (.cons "meta" (.obj (.cons "a" (.num 1) .nil)) .nil))) ∧
    getObjectDifferences
      (.obj (.cons "post" (.obj (.cons "id" (.str "x") .nil))
        (.cons "meta" (.obj (.cons "a" (.num 1) (.cons "b" (.num 2) .nil))) .nil)))
      (.obj (.cons "post" (.obj (.cons "id" (.str "x") .nil))
        (.cons "meta" (.obj (.cons "a" (.num 1) .nil)) .nil))) = .ok [] ∧
    compareFeeds
      [⟨"t1", 1, ⟨[.obj (.cons "post" (.obj (.cons "id" (.str "x") .nil))
          (.cons "meta" (.obj (.cons "a" (.num 1) (.cons "b" (.num 2) .nil))) .nil))]⟩⟩,
       ⟨"t2", 2, ⟨[.obj (.cons "post" (.obj (.cons "id" (.str "x") .nil))
          (.cons "meta" (.obj (.cons "a" (.num 1) .nil)) .nil))]⟩⟩] =
      .ok [⟨2, "t2", "t1", ⟨⟨1, 1, 0⟩, [], [], [⟨some (.str "x"), []⟩]⟩⟩] :=
  ⟨by decide, rfl, rfl⟩

/-- C5: end-to-end scenario — previous snapshot items
`[{post:{id:"a"}, likes:1}, {post:{id:"b"}, likes:2}]`, current snapshot
items `[{post:{id:"b"}, likes:5}, {post:{id:"c"}, likes:1}]`.  The
comparison lists exactly id `"c"` as new, exactly id `"a"` as removed,
exactly one modified entry for id `"b"` whose diff list is the single
modified record at path `likes` with old value `2` and new value `5`,
and the total-count triple `{previous: 2, current: 2, difference: 0}`. -/
theorem c5_end_to_end :
    compareFeeds
      [⟨"t1", 1, ⟨[.obj (.cons "post" (.obj (.cons "id" (.str "a") .nil))
          (.cons "likes" (.num 1) .nil)),
        .obj (.cons "post" (.obj (.cons "id" (.str "b") .nil))
          (.cons "likes" (.num 2) .nil))]⟩⟩,
       ⟨"t2", 2, ⟨[.obj (.cons "post" (.obj (.cons "id" (.str "b") .nil))
          (.cons "likes" (.num 5) .nil)),
        .obj (.cons "post" (.obj (.cons "id" (.str "c") .nil))
          (.cons "likes" (.num 1) .nil))]⟩⟩] =
      .ok [⟨2, "t2", "t1", ⟨⟨2, 2, 0⟩, [⟨some (.str "c")⟩], [⟨some (.str "a")⟩],
        [⟨some (.str "b"), [⟨"likes", "modified", some (.num 2), some (.num 5)⟩]⟩]⟩⟩] :=
  rfl

/-! ### Report statistics (claims C2, C7) -/

/-- C2 counterexample: building the report from an empty snapshot list
does not yield all-zero statistics.  No error is raised, and the three
count sums are zero, but `averageItemsPerIteration` is the `NaN` of the
unguarded division `0 / 0`, `minItems` is `Math.min()` of no arguments
(`Infinity`) and `maxItems` is `-Infinity` — none of which is zero. -/
theorem c2_empty_report_stats_cex :
    (generateComparisonReport 10 0 []).map (fun r => r.statistics) =
      .ok ⟨0, 0, 0, .nan, .inf, .negInf⟩ ∧
    JSNum.nan ≠ .num 0 ∧ JSNum.inf ≠ .num 0 ∧ JSNum.negInf ≠ .num 0 := by
  refine ⟨?_, by decide, by decide, by decide⟩
  norm_num [generateComparisonReport, compareFeeds, compareFeedsAux, jsDiv,
    jsMinList, jsMaxList, Except.map]

/-- C2 amended: building the report from an empty snapshot list raises
no error and returns a Report with empty `iterations`, empty
`comparisons` and zero new/removed/modified totals, but the
average-items-per-iteration computation performs the division `0 / 0`
without a guard, producing `NaN`, and the empty spreads give
`minItems = Infinity` and `maxItems = -Infinity`. -/
theorem c2_empty_report (n : Nat) (d : Int) :
    generateComparisonReport n d [] =
      .ok ⟨⟨n, d, jsDiv (d : Rat) (n : Rat)⟩, [], [], ⟨0, 0, 0, .nan, .inf, .negInf⟩⟩ := by
  norm_num [generateComparisonReport, compareFeeds, compareFeedsAux, jsMinList,
    jsMaxList]
  norm_num [jsDiv]

/-- C7: in every Report the source produces, `summary.averageInterval`
is `totalDuration / totalIterations` — the configured iteration count
`this.iterations`, not the number `N - 1` of inter-fetch gaps. -/
theorem c7_average_interval (n : Nat) (d : Int) (files : List FeedFile) (r : Report)
    (hn : n ≠ 0) (h : generateComparisonReport n d files = .ok r) :
    r.summary.totalIterations = n ∧ r.summary.totalDuration = d ∧
    r.summary.averageInterval = .num ((d : Rat) / (n : Rat)) := by
  simp only [generateComparisonReport] at h
  split at h
  · exact absurd h (by simp)
  · obtain rfl := Except.ok.inj h
    refine ⟨rfl, rfl, ?_⟩
    have hn' : ((n : Nat) : Rat) ≠ 0 := Nat.cast_ne_zero.mpr hn
    simp [jsDiv, hn']

/-- Witness for C7 with 2 iterations and a 10ms duration over no
snapshot files: the average interval is 10 / 2. -/
theorem c7_average_interval_witness :
    Summary.totalIterations ⟨2, 10, jsDiv ((10 : Int) : Rat) ((2 : Nat) : Rat)⟩ = 2 ∧
    Summary.totalDuration ⟨2, 10, jsDiv ((10 : Int) : Rat) ((2 : Nat) : Rat)⟩ = 10 ∧
    Summary.averageInterval ⟨2, 10, jsDiv ((10 : Int) : Rat) ((2 : Nat) : Rat)⟩ =
      .num (((10 : Int) : Rat) / ((2 : Nat) : Rat)) := by
  have h := c7_average_interval 2 10 []
    ⟨⟨2, 10, jsDiv ((10 : Int) : Rat) ((2 : Nat) : Rat)⟩, [], [],
      ⟨0, 0, 0, .nan, .inf, .negInf⟩⟩
    (by decide) (by norm_num [generateComparisonReport, compareFeeds, compareFeedsAux,
      jsMinList, jsMaxList, jsDiv])
  exact h

/-! ### The fetch loop and the fail-fast policy (claim C6) -/

theorem runAux_error : ∀ (m : Nat) (fetch : Nat → Except JsErr FeedData)
    (ts : Nat → String) (n k : Nat) (e : JsErr) (dta : Nat → FeedData)
    (i : Nat) (acc : List FeedFile),
    i + m = k → k < n → fetch k = .error e →
    (∀ j, i ≤ j → j < k → fetch j = .ok (dta j)) →
    runAux fetch ts n i acc =
      (acc ++ (List.range' i m).map (fun j => ⟨ts j, j + 1, dta j⟩), .error e)
  | 0, fetch, ts, n, k, e, dta, i, acc, him, hkn, hke, hok => by
      have hik : i = k := by omega
      subst hik
      rw [runAux, if_pos hkn, hke]
      simp [List.range']
  | m + 1, fetch, ts, n, k, e, dta, i, acc, him, hkn, hke, hok => by
      have hik : i < k := by omega
      rw [runAux, if_pos (by omega : i < n), hok i le_rfl hik]
      dsimp only
      have ih := runAux_error m fetch ts n k e dta (i + 1)
        (acc ++ [⟨ts i, i + 1, dta i⟩]) (by omega) hkn hke
        (fun j h1 h2 => hok j (by omega) h2)
      rw [ih]
      rw [show List.range' i (m + 1) = i :: List.range' (i + 1) m from List.range'_succ i m 1]
      simp

/-- C6: if the fetch of iteration `k` (zero-based) throws while every
earlier fetch succeeded, the whole run aborts at once: the snapshot
store holds exactly the `k` snapshots collected before the failure, the
error is the value propagated to the caller, and no Report is produced
(the report generator is never reached) — for every behaviour of the
fetches the loop never performs. -/
theorem c6_fetch_error_aborts (fetch : Nat → Except JsErr FeedData)
    (ts : Nat → String) (n : Nat) (d : Int) (k : Nat) (e : JsErr)
    (dta : Nat → FeedData) (hkn : k < n) (hke : fetch k = .error e)
    (hok : ∀ j, j < k → fetch j = .ok (dta j)) :
    runModel fetch ts n d =
      ((List.range k).map (fun j => ⟨ts j, j + 1, dta j⟩), .error e) := by
  have h := runAux_error k fetch ts n k e dta 0 [] (by omega) hkn hke
    (fun j _ h2 => hok j h2)
  rw [runModel, h]
  rw [List.range_eq_range']
  simp

/-- Witness for C6: three configured iterations with the second fetch
failing — the run stops with one collected snapshot and the error, and
no report. -/
theorem c6_fetch_error_aborts_witness :
    runModel (fun i => if i = 1 then .error (.fetchError "boom") else .ok ⟨[]⟩)
      (fun _ => "t") 3 5 = ([⟨"t", 1, ⟨[]⟩⟩], .error (.fetchError "boom")) := by
  have h := c6_fetch_error_aborts
    (fun i => if i = 1 then .error (.fetchError "boom") else .ok ⟨[]⟩)
    (fun _ => "t") 3 5 1 (.fetchError "boom") (fun _ => ⟨[]⟩)
    (by omega) rfl
    (fun j hj => by
      have hj0 : j = 0 := by omega
      subst hj0; rfl)
  simpa using h
